import Mathlib

/-!
Verification of the managed-volume database contract of this repository
(`vdsm.storage.managedvolumedb`, exercised by
`tests/storage/managedvolumedb_test.py`) and of the disk-unmap hook
(`vdsm_hooks/diskunmap/before_vm_start.py`).

The store itself is not shipped in this source tree (only its test suite
is), so its operations are modelled from the specification: a volume
record keyed by a caller-supplied id holding an opaque connection-info
document set at creation, plus optional `path`, `attachment` and
`multipath_id` fields set together by an update.  Every operation runs as
one atomic transaction: on failure it raises and leaves the store
untouched.  The id and document types are kept abstract, since the spec
says the store never interprets them.
-/

set_option maxHeartbeats 1000000

/-- Modelled from the spec: the error taxonomy of the store, using the
names the test suite imports (`NotFound`, `VolumeAlreadyExists`,
`Closed`). -/
inductive DBError where
  | NotFound
  | VolumeAlreadyExists
  | Closed
deriving DecidableEq

/-- Modelled from the spec: one row of the `volumes` relation:
`id` primary key, `connection_info` set at creation, and the three
optional fields set together by `update_volume`. -/
structure VolumeRecord (ι δ : Type) where
  id : ι
  connection_info : δ
  path : Option String
  attachment : Option δ
  multipath_id : Option String
deriving DecidableEq

/-- Modelled from the spec: the record `get_volume` returns — the full
current record, with the optional fields absent (`none`) until an update
sets them. -/
structure VolumeInfo (δ : Type) where
  connection_info : δ
  path : Option String
  attachment : Option δ
  multipath_id : Option String
deriving DecidableEq

/-- Modelled from the spec: the singleton `schema_version` row: numeric
version, free-text description and an `updated` timestamp of second
precision (modelled as seconds since an epoch). -/
structure VersionInfo where
  version : Nat
  description : String
  updated : Nat
deriving DecidableEq

/-- Modelled from the spec: the current schema version constant. -/
def VERSION : Nat := 1

/-- Modelled from the spec: the on-disk state of the store: the volume
table plus the schema-version row written at bootstrap. -/
structure Store (ι δ : Type) where
  volumes : List (VolumeRecord ι δ)
  version : Nat
  description : String
  updated : Nat
deriving DecidableEq

/-- Modelled from the spec: `create_db` bootstraps the store file.  On a
path with no valid store it writes an empty volume table and the
schema-version row (version `VERSION`, description "Initial version",
`updated` = creation time); on an already-initialized file it is
idempotent: no error and no data loss.  The prior state of the file is
passed explicitly (`none` = no store exists yet). -/
def create_db (existing : Option (Store ι δ)) (now : Nat) : Store ι δ :=
  match existing with
  | some s => s
  | none => { volumes := [], version := VERSION,
              description := "Initial version", updated := now }

/-- Modelled from the spec: `get_volume` returns the full current record
of `id`, failing with `NotFound` when no live record has that id. -/
def Store.get_volume [DecidableEq ι] (s : Store ι δ) (id : ι) :
    Except DBError (VolumeInfo δ) :=
  match s.volumes.find? (fun r => decide (r.id = id)) with
  | some r => Except.ok ⟨r.connection_info, r.path, r.attachment, r.multipath_id⟩
  | none => Except.error DBError.NotFound

/-- Modelled from the spec: `add_volume` creates a new record with only
`connection_info` populated, failing with `VolumeAlreadyExists` (and
mutating nothing) when the id is already present. -/
def Store.add_volume [DecidableEq ι] (s : Store ι δ) (id : ι) (ci : δ) :
    Except DBError (Store ι δ) :=
  if s.volumes.any (fun r => decide (r.id = id)) then
    Except.error DBError.VolumeAlreadyExists
  else
    Except.ok { s with volumes := s.volumes ++ [⟨id, ci, none, none, none⟩] }

/-- Modelled from the spec: `update_volume` sets `path`, `attachment` and
`multipath_id` together on an existing record, leaving `id` and
`connection_info` unchanged; it fails with `NotFound` when the id is
absent. -/
def Store.update_volume [DecidableEq ι] (s : Store ι δ) (id : ι)
    (path : String) (attachment : δ) (multipath_id : String) :
    Except DBError (Store ι δ) :=
  if s.volumes.any (fun r => decide (r.id = id)) then
    Except.ok { s with volumes := s.volumes.map (fun r =>
      if r.id = id then
        { r with path := some path, attachment := some attachment,
                 multipath_id := some multipath_id }
      else r) }
  else Except.error DBError.NotFound

/-- Modelled from the spec: `remove_volume` deletes the record entirely,
failing with `NotFound` when the id is absent. -/
def Store.remove_volume [DecidableEq ι] (s : Store ι δ) (id : ι) :
    Except DBError (Store ι δ) :=
  if s.volumes.any (fun r => decide (r.id = id)) then
    Except.ok { s with volumes := s.volumes.filter (fun r => decide (¬ r.id = id)) }
  else Except.error DBError.NotFound

/-- Modelled from the spec: `owns_multipath` reports whether at least one
currently-live record has exactly the given `multipath_id` set; it is a
read-only scan returning a boolean, never an error. -/
def Store.owns_multipath (s : Store ι δ) (m : String) : Bool :=
  s.volumes.any (fun r => decide (r.multipath_id = some m))

/-- Modelled from the spec: `version_info` returns the schema-version
row written at bootstrap. -/
def Store.version_info (s : Store ι δ) : VersionInfo :=
  ⟨s.version, s.description, s.updated⟩

/-- Modelled from the spec: each operation is one atomic transaction, so
a failing `add_volume` leaves the on-disk state exactly as it was.
`run_add` is the state of the store after the call, whether it raised or
not. -/
def Store.run_add [DecidableEq ι] (s : Store ι δ) (id : ι) (ci : δ) :
    Store ι δ :=
  match s.add_volume id ci with
  | Except.ok s2 => s2
  | Except.error _ => s

/-- Modelled from the spec: an opened connection handle, owning the
underlying transactional connection; `closed` records whether `close`
has been called. -/
structure DB (ι δ : Type) where
  store : Store ι δ
  closed : Bool

/-- Modelled from the spec: `open` returns a handle bound to the store. -/
def openDB (s : Store ι δ) : DB ι δ := ⟨s, false⟩

/-- Modelled from the spec: `close` releases the connection; it is
idempotent, and afterwards every operation on the handle fails with
`Closed`. -/
def DB.close (db : DB ι δ) : DB ι δ := { db with closed := true }

/-- Modelled from the spec: `get_volume` on a handle: poisoned after
`close`. -/
def DB.get_volume [DecidableEq ι] (db : DB ι δ) (id : ι) :
    Except DBError (VolumeInfo δ) :=
  if db.closed then Except.error DBError.Closed else db.store.get_volume id

/-- Modelled from the spec: `add_volume` on a handle: poisoned after
`close`. -/
def DB.add_volume [DecidableEq ι] (db : DB ι δ) (id : ι) (ci : δ) :
    Except DBError (DB ι δ) :=
  if db.closed then Except.error DBError.Closed
  else (db.store.add_volume id ci).map (fun s => { db with store := s })

/-- Modelled from the spec: `update_volume` on a handle: poisoned after
`close`. -/
def DB.update_volume [DecidableEq ι] (db : DB ι δ) (id : ι)
    (path : String) (attachment : δ) (multipath_id : String) :
    Except DBError (DB ι δ) :=
  if db.closed then Except.error DBError.Closed
  else (db.store.update_volume id path attachment multipath_id).map
    (fun s => { db with store := s })

/-- Modelled from the spec: `remove_volume` on a handle: poisoned after
`close`. -/
def DB.remove_volume [DecidableEq ι] (db : DB ι δ) (id : ι) :
    Except DBError (DB ι δ) :=
  if db.closed then Except.error DBError.Closed
  else (db.store.remove_volume id).map (fun s => { db with store := s })

/-- Modelled from the spec: `owns_multipath` on a handle: poisoned after
`close`. -/
def DB.owns_multipath (db : DB ι δ) (m : String) : Except DBError Bool :=
  if db.closed then Except.error DBError.Closed
  else Except.ok (db.store.owns_multipath m)

/-- Modelled from the spec: `version_info` on a handle: poisoned after
`close`. -/
def DB.version_info (db : DB ι δ) : Except DBError VersionInfo :=
  if db.closed then Except.error DBError.Closed
  else Except.ok db.store.version_info

/-- The opaque documents of the test suite: flat string maps such as
`{"key": "value"}`. -/
def Doc : Type := List (String × String)

instance : DecidableEq Doc := by
  unfold Doc
  infer_instance

/-- Claim C1: on a fresh store, `add_volume id ci` succeeds and a
subsequent `get_volume id` returns a record holding exactly `ci` as its
connection info with `path`, `attachment` and `multipath_id` all absent. -/
theorem add_then_get_on_fresh_store (now : Nat) (id : String) (ci : Doc) :
    ∃ s1, (create_db (ι := String) (δ := Doc) none now).add_volume id ci
            = Except.ok s1 ∧
      s1.get_volume id = Except.ok ⟨ci, none, none, none⟩ := by
  refine ⟨_, rfl, ?_⟩
  simp [create_db, Store.add_volume, Store.get_volume, List.find?]

/-- `find?` over a map by an id-preserving function finds the image of
what `find?` finds in the original list. -/
theorem find?_map_id_preserved {ι δ : Type} [DecidableEq ι]
    (f : VolumeRecord ι δ → VolumeRecord ι δ) (hf : ∀ r, (f r).id = r.id)
    (id : ι) :
    ∀ l : List (VolumeRecord ι δ),
      (l.map f).find? (fun r => decide (r.id = id))
        = (l.find? (fun r => decide (r.id = id))).map f
  | [] => rfl
  | a :: l => by
    by_cases h : a.id = id
    · simp [List.find?, hf, h]
    · simp [List.find?, hf, h, find?_map_id_preserved f hf id l]

/-- `any` over a filtered list is `any` of the conjunction. -/
theorem any_filter_eq {α : Type} (p q : α → Bool) :
    ∀ l : List α, (l.filter q).any p = l.any (fun a => p a && q a)
  | [] => rfl
  | a :: l => by
    by_cases h : q a
    · simp [List.filter_cons, h, any_filter_eq p q l]
    · simp [List.filter_cons, h, any_filter_eq p q l]

/-- Claim C2: on a record that exists, `update_volume` sets exactly
`path`, `attachment` and `multipath_id` and leaves `connection_info`
(and the id) unchanged, so the following `get_volume` returns all four
fields; on an absent id it fails with `NotFound`. -/
theorem update_then_get (s : Store String Doc) (id p m : String) (a : Doc) :
    match s.get_volume id with
    | Except.ok info => ∃ s2, s.update_volume id p a m = Except.ok s2 ∧
        s2.get_volume id
          = Except.ok ⟨info.connection_info, some p, some a, some m⟩
    | Except.error _ =>
        s.update_volume id p a m = Except.error DBError.NotFound := by
  unfold Store.get_volume
  cases hf : s.volumes.find? (fun r => decide (r.id = id)) with
  | none =>
    have hany : s.volumes.any (fun r => decide (r.id = id)) = false := by
      rw [List.any_eq_false]
      intro r hr
      have := List.find?_eq_none.mp hf r hr
      simpa using this
    simp [Store.update_volume, hany]
  | some r =>
    have hid : r.id = id := by simpa using List.find?_some hf
    have hmem : r ∈ s.volumes := List.mem_of_find?_eq_some hf
    have hany : s.volumes.any (fun r => decide (r.id = id)) = true := by
      rw [List.any_eq_true]
      exact ⟨r, hmem, by simpa using hid⟩
    simp only [Store.update_volume, hany, if_true]
    refine ⟨_, rfl, ?_⟩
    show Store.get_volume _ id = _
    unfold Store.get_volume
    dsimp only
    rw [find?_map_id_preserved _ ?pres id s.volumes, hf]
    case pres =>
      intro r2
      by_cases h : r2.id = id <;> simp [h]
    simp [hid]

/-- Claim C3: `owns_multipath m` is true exactly when some live record
has `multipath_id = m`; a successful `update_volume` setting `m` makes
it true, and after a successful `remove_volume id` it reports whether a
record other than `id` still owns `m` (so it becomes false when the
removed record was the only owner). -/
theorem owns_multipath_spec (s : Store String Doc) (m id p : String) (a : Doc) :
    (s.owns_multipath m = true ↔ ∃ r ∈ s.volumes, r.multipath_id = some m) ∧
    (match s.update_volume id p a m with
     | Except.ok s2 => s2.owns_multipath m = true
     | Except.error _ => True) ∧
    (match s.remove_volume id with
     | Except.ok s2 => s2.owns_multipath m
         = s.volumes.any (fun r =>
             decide (r.multipath_id = some m) && decide (¬ r.id = id))
     | Except.error _ => True) := by
  refine ⟨by simp [Store.owns_multipath, List.any_eq_true], ?_, ?_⟩
  · unfold Store.update_volume
    by_cases hany : s.volumes.any (fun r => decide (r.id = id)) = true
    · rw [if_pos hany]
      rw [List.any_eq_true] at hany
      obtain ⟨r, hmem, hid⟩ := hany
      have hid2 : r.id = id := by simpa using hid
      dsimp only
      simp only [Store.owns_multipath, List.any_eq_true]
      refine ⟨_, List.mem_map_of_mem _ hmem, ?_⟩
      simp [hid2]
    · rw [if_neg hany]
      trivial
  · unfold Store.remove_volume
    by_cases hany : s.volumes.any (fun r => decide (r.id = id)) = true
    · rw [if_pos hany]
      dsimp only
      simp only [Store.owns_multipath]
      rw [any_filter_eq]
    · rw [if_neg hany]
      trivial

/-- Claim C4: a second `add_volume` with an id already present fails
with `VolumeAlreadyExists` and mutates nothing: the state after the
failing call is the original store, and `get_volume` still returns the
record written by the first call. -/
theorem duplicate_add_rejected (s : Store String Doc) (id : String) (ci2 : Doc) :
    match s.get_volume id with
    | Except.ok info =>
        s.add_volume id ci2 = Except.error DBError.VolumeAlreadyExists ∧
        s.run_add id ci2 = s ∧
        (s.run_add id ci2).get_volume id = Except.ok info
    | Except.error _ => True := by
  unfold Store.get_volume
  cases hf : s.volumes.find? (fun r => decide (r.id = id)) with
  | none => trivial
  | some r =>
    have hid : r.id = id := by simpa using List.find?_some hf
    have hany : s.volumes.any (fun r => decide (r.id = id)) = true := by
      rw [List.any_eq_true]
      exact ⟨r, List.mem_of_find?_eq_some hf, by simpa using hid⟩
    have hadd : s.add_volume id ci2 = Except.error DBError.VolumeAlreadyExists := by
      unfold Store.add_volume
      rw [if_pos hany]
    have hrun : s.run_add id ci2 = s := by
      unfold Store.run_add
      rw [hadd]
    refine ⟨hadd, hrun, ?_⟩
    rw [hrun]
    show Store.get_volume _ id = _
    unfold Store.get_volume
    rw [hf]

/-- Claim C5: `get_volume` fails with `NotFound` exactly when no live
record has the id (in particular on a fresh store); a successful
`remove_volume id` makes the next `get_volume id` fail with `NotFound`;
`remove_volume` can only fail with `NotFound`, and does so exactly when
the id is absent. -/
theorem get_notfound_iff_absent (s : Store String Doc) (id : String) (now : Nat) :
    (s.get_volume id = Except.error DBError.NotFound
       ↔ ∀ r ∈ s.volumes, ¬ r.id = id) ∧
    (create_db (ι := String) (δ := Doc) none now).get_volume id
       = Except.error DBError.NotFound ∧
    (match s.remove_volume id with
     | Except.ok s2 => s2.get_volume id = Except.error DBError.NotFound
     | Except.error e => e = DBError.NotFound) ∧
    (s.remove_volume id = Except.error DBError.NotFound
       ↔ ∀ r ∈ s.volumes, ¬ r.id = id) := by
  refine ⟨?_, ?_, ?_, ?_⟩
  · unfold Store.get_volume
    cases hf : s.volumes.find? (fun r => decide (r.id = id)) with
    | none =>
      simp only [true_iff]
      intro r hr
      have := List.find?_eq_none.mp hf r hr
      simpa using this
    | some r =>
      simp only [reduceCtorEq, false_iff]
      intro hall
      exact hall r (List.mem_of_find?_eq_some hf) (by simpa using List.find?_some hf)
  · simp [create_db, Store.get_volume, List.find?]
  · unfold Store.remove_volume
    by_cases hany : s.volumes.any (fun r => decide (r.id = id)) = true
    · rw [if_pos hany]
      dsimp only
      unfold Store.get_volume
      dsimp only
      cases hf : (s.volumes.filter (fun r => decide (¬ r.id = id))).find?
          (fun r => decide (r.id = id)) with
      | none => rfl
      | some r =>
        have hmem := List.mem_of_find?_eq_some hf
        have hid : r.id = id := by simpa using List.find?_some hf
        rw [List.mem_filter] at hmem
        exact absurd hid (by simpa using hmem.2)
    · rw [if_neg hany]
  · unfold Store.remove_volume
    by_cases hany : s.volumes.any (fun r => decide (r.id = id)) = true
    · rw [if_pos hany]
      rw [List.any_eq_true] at hany
      obtain ⟨r, hmem, hid⟩ := hany
      simp only [reduceCtorEq, false_iff]
      intro hall
      exact hall r hmem (by simpa using hid)
    · rw [if_neg hany]
      rw [Bool.not_eq_true, List.any_eq_false] at hany
      constructor
      · intro _ r hr
        simpa using hany r hr
      · intro _
        rfl

/-- Claim C6: after `close`, every operation on the handle — including
the read-only `get_volume`, `owns_multipath` and `version_info` — fails
with `Closed`, and `close` itself is idempotent. -/
theorem closed_handle_poisoned (db : DB String Doc) (id p m : String) (ci a : Doc) :
    (db.close).get_volume id = Except.error DBError.Closed ∧
    (db.close).add_volume id ci = Except.error DBError.Closed ∧
    (db.close).update_volume id p a m = Except.error DBError.Closed ∧
    (db.close).remove_volume id = Except.error DBError.Closed ∧
    (db.close).owns_multipath m = Except.error DBError.Closed ∧
    (db.close).version_info = Except.error DBError.Closed ∧
    (db.close).close = db.close := by
  exact ⟨rfl, rfl, rfl, rfl, rfl, rfl, rfl⟩

/-- Claim C7: after bootstrap, `version_info` reports the current schema
version constant, the description "Initial version", and an `updated`
timestamp at least the time bootstrap was invoked. -/
theorem version_info_after_bootstrap (now : Nat) :
    ((create_db (ι := String) (δ := Doc) none now).version_info).version
        = VERSION ∧
    ((create_db (ι := String) (δ := Doc) none now).version_info).description
        = "Initial version" ∧
    now ≤ ((create_db (ι := String) (δ := Doc) none now).version_info).updated := by
  exact ⟨rfl, rfl, Nat.le_refl now⟩

/-- Claim C8: bootstrapping an already-initialized store is idempotent —
no error is raised, the state is returned unchanged, and every record
present before the call is still returned unchanged by `get_volume`. -/
theorem create_db_idempotent (s : Store String Doc) (now : Nat) (id : String) :
    create_db (some s) now = s ∧
    (create_db (some s) now).volumes = s.volumes ∧
    (create_db (some s) now).get_volume id = s.get_volume id := by
  exact ⟨rfl, rfl, rfl⟩

/-- `any` of a list is the non-emptiness of its filtering. -/
theorem any_eq_not_isEmpty_filter {α : Type} (p : α → Bool) :
    ∀ l : List α, l.any p = !(l.filter p).isEmpty
  | [] => rfl
  | a :: l => by
    by_cases h : p a
    · simp [List.filter_cons, h]
    · simp [List.filter_cons, h, any_eq_not_isEmpty_filter p l]

/-- Filtering by id commutes with mapping an id-preserving function. -/
theorem filter_map_id_preserved {ι δ : Type} [DecidableEq ι]
    (f : VolumeRecord ι δ → VolumeRecord ι δ) (hf : ∀ r, (f r).id = r.id)
    (j : ι) :
    ∀ l : List (VolumeRecord ι δ),
      (l.map f).filter (fun r => decide (r.id = j))
        = (l.filter (fun r => decide (r.id = j))).map f
  | [] => rfl
  | a :: l => by
    by_cases h : a.id = j
    · simp [List.filter_cons, hf, h, filter_map_id_preserved f hf j l]
    · simp [List.filter_cons, hf, h, filter_map_id_preserved f hf j l]

/-- `find?` returns the head of the filtered list. -/
theorem find?_eq_head?_filter {α : Type} (p : α → Bool) :
    ∀ l : List α, l.find? p = (l.filter p).head?
  | [] => rfl
  | a :: l => by
    by_cases h : p a
    · rw [List.find?_cons_of_pos _ h, List.filter_cons_of_pos h]
      rfl
    · rw [List.find?_cons_of_neg _ h, List.filter_cons_of_neg h,
        find?_eq_head?_filter p l]

/-- A filtering by a stronger predicate passes through a filtering by a
weaker one. -/
theorem filter_sub {α : Type} (p q : α → Bool)
    (himp : ∀ a, p a = true → q a = true) :
    ∀ l : List α, (l.filter q).filter p = l.filter p
  | [] => rfl
  | a :: l => by
    by_cases hq : q a
    · by_cases hp : p a <;>
        simp [List.filter_cons, hp, hq, filter_sub p q himp l]
    · have hp : p a = false := by
        cases hpa : p a
        · rfl
        · exact absurd (himp a hpa) (by simpa using hq)
      simp [List.filter_cons, hp, hq, filter_sub p q himp l]

/-- One step of the concurrency test of the suite: worker `w`, iteration
`i`, first adds volume `(w, i)` and later updates it.  Each step is one
atomic transaction of the store, so a thread interleaving is a sequence
of these operations. -/
inductive WOp where
  | addOp (w i : Nat)
  | updOp (w i : Nat)
deriving DecidableEq

/-- The worker that issues an operation. -/
def opWorker : WOp → Nat
  | .addOp w _ => w
  | .updOp w _ => w

/-- The volume id an operation works on. -/
def opVol : WOp → Nat × Nat
  | .addOp w i => (w, i)
  | .updOp w i => (w, i)

/-- The connection info the test writes for volume `(w, i)`. -/
def ciOf (w i : Nat) : Doc := [("connection", toString w ++ "-" ++ toString i)]

/-- The device path the test writes for volume `(w, i)`. -/
def pathOf (w i : Nat) : String := "/dev/mapper/" ++ toString w ++ "-" ++ toString i

/-- The attachment document the test writes for volume `(w, i)`. -/
def attOf (w i : Nat) : Doc := [("attachment", toString w ++ "-" ++ toString i)]

/-- The multipath id the test writes for volume `(w, i)`. -/
def mpOf (w i : Nat) : String := toString w ++ "-" ++ toString i

/-- Executing one operation against the shared store: `add_volume` or
`update_volume` on the operation's own volume id, keeping the old state
when the store raises. -/
def execOp (s : Store (Nat × Nat) Doc) (op : WOp) : Store (Nat × Nat) Doc :=
  match op with
  | .addOp w i => s.run_add (w, i) (ciOf w i)
  | .updOp w i =>
    match s.update_volume (w, i) (pathOf w i) (attOf w i) (mpOf w i) with
    | Except.ok s2 => s2
    | Except.error _ => s

/-- Executing a whole interleaved schedule, one transaction at a time. -/
def execTrace (s : Store (Nat × Nat) Doc) (tr : List WOp) :
    Store (Nat × Nat) Doc :=
  tr.foldl execOp s

/-- The program of one worker: for each iteration in order, `add` then
the delayed `update` on its own id. -/
def workerOps (w : Nat) : Nat → List WOp
  | 0 => []
  | M + 1 => workerOps w M ++ [WOp.addOp w M, WOp.updOp w M]

/-- A schedule is an interleaving of the programs of `N` workers with
`M` iterations each: every operation belongs to one of the workers, and
the subsequence of each worker's operations is exactly its program. -/
def IsInterleaving (N M : Nat) (tr : List WOp) : Prop :=
  (∀ op ∈ tr, opWorker op < N) ∧
  ∀ w, w < N → tr.filter (fun op => decide (opWorker op = w)) = workerOps w M

instance (N M : Nat) (tr : List WOp) : Decidable (IsInterleaving N M tr) := by
  unfold IsInterleaving
  infer_instance

/-- Whether an operation works on volume `(w, i)`. -/
def touches (w i : Nat) (op : WOp) : Bool := decide (opVol op = (w, i))

/-- The records of the store that carry a given volume id. -/
def volsOf (s : Store (Nat × Nat) Doc) (j : Nat × Nat) :
    List (VolumeRecord (Nat × Nat) Doc) :=
  s.volumes.filter (fun r => decide (r.id = j))

/-- The fully populated record the test expects for volume `(w, i)`. -/
def fullRec (w i : Nat) : VolumeRecord (Nat × Nat) Doc :=
  ⟨(w, i), ciOf w i, some (pathOf w i), some (attOf w i), some (mpOf w i)⟩

/-- The per-volume automaton: how the records of volume `(w, i)` evolve
under one of its own operations. -/
def idStep (w i : Nat) (l : List (VolumeRecord (Nat × Nat) Doc)) :
    WOp → List (VolumeRecord (Nat × Nat) Doc)
  | .addOp _ _ =>
      if l.isEmpty then l ++ [⟨(w, i), ciOf w i, none, none, none⟩] else l
  | .updOp _ _ => l.map (fun r =>
      if r.id = (w, i) then
        { r with path := some (pathOf w i), attachment := some (attOf w i),
                 multipath_id := some (mpOf w i) }
      else r)

/-- Frame property: adding a volume under a different id leaves the
records of `j` untouched, whether the add succeeds or raises. -/
theorem volsOf_run_add_ne (s : Store (Nat × Nat) Doc) (j2 j : Nat × Nat)
    (ci : Doc) (hne : j2 ≠ j) :
    volsOf (s.run_add j2 ci) j = volsOf s j := by
  unfold Store.run_add Store.add_volume
  by_cases hg : s.volumes.any (fun r => decide (r.id = j2)) = true
  · rw [if_pos hg]
  · rw [if_neg hg]
    show volsOf { s with volumes := s.volumes ++ [⟨j2, ci, none, none, none⟩] } j
        = volsOf s j
    unfold volsOf
    dsimp only
    rw [List.filter_append]
    have h1 : List.filter (fun r => decide (r.id = j))
        [(⟨j2, ci, none, none, none⟩ : VolumeRecord (Nat × Nat) Doc)] = [] := by
      simp [List.filter, hne]
    rw [h1, List.append_nil]

/-- Adding volume `(w, i)` itself appends the fresh record exactly when
no record with that id exists yet, and otherwise raises and changes
nothing. -/
theorem volsOf_run_add_self (s : Store (Nat × Nat) Doc) (w i : Nat) :
    volsOf (s.run_add (w, i) (ciOf w i)) (w, i)
      = if (volsOf s (w, i)).isEmpty then
          volsOf s (w, i) ++ [⟨(w, i), ciOf w i, none, none, none⟩]
        else volsOf s (w, i) := by
  unfold Store.run_add Store.add_volume
  cases he : (s.volumes.filter (fun r => decide (r.id = (w, i)))).isEmpty with
  | false =>
    have h1 : s.volumes.any (fun r => decide (r.id = (w, i))) = true := by
      rw [any_eq_not_isEmpty_filter, he]
      rfl
    rw [if_pos h1]
    have hv : (volsOf s (w, i)).isEmpty = false := he
    rw [hv]
    simp
  | true =>
    have h1 : s.volumes.any (fun r => decide (r.id = (w, i))) = false := by
      rw [any_eq_not_isEmpty_filter, he]
      rfl
    rw [if_neg (by rw [h1]; simp)]
    have hv : (volsOf s (w, i)).isEmpty = true := he
    rw [hv]
    rw [if_pos rfl]
    show volsOf { s with
        volumes := s.volumes ++ [⟨(w, i), ciOf w i, none, none, none⟩] } (w, i)
      = volsOf s (w, i) ++ [⟨(w, i), ciOf w i, none, none, none⟩]
    unfold volsOf
    dsimp only
    rw [List.filter_append]
    congr 1
    simp [List.filter]

/-- Updating volume `(w, i)` populates every record carrying that id,
and does nothing when none exists. -/
theorem volsOf_run_upd_self (s : Store (Nat × Nat) Doc) (w i : Nat) :
    volsOf (match s.update_volume (w, i) (pathOf w i) (attOf w i) (mpOf w i) with
      | Except.ok s2 => s2
      | Except.error _ => s) (w, i)
      = (volsOf s (w, i)).map (fun r =>
          if r.id = (w, i) then
            { r with path := some (pathOf w i), attachment := some (attOf w i),
                     multipath_id := some (mpOf w i) }
          else r) := by
  unfold Store.update_volume
  cases he : (s.volumes.filter (fun r => decide (r.id = (w, i)))).isEmpty with
  | false =>
    have h1 : s.volumes.any (fun r => decide (r.id = (w, i))) = true := by
      rw [any_eq_not_isEmpty_filter, he]
      rfl
    rw [if_pos h1]
    dsimp only
    unfold volsOf
    dsimp only
    rw [filter_map_id_preserved _ ?pres (w, i) s.volumes]
    case pres =>
      intro r
      by_cases h : r.id = (w, i) <;> simp [h]
  | true =>
    have h1 : s.volumes.any (fun r => decide (r.id = (w, i))) = false := by
      rw [any_eq_not_isEmpty_filter, he]
      rfl
    rw [if_neg (by rw [h1]; simp)]
    have hv : volsOf s (w, i) = [] := by
      unfold volsOf
      exact List.isEmpty_iff.mp he
    rw [hv]
    rfl

/-- Frame property: updating a volume under a different id leaves the
records of `j` untouched, whether the update succeeds or raises. -/
theorem volsOf_run_upd_ne (s : Store (Nat × Nat) Doc) (w2 i2 : Nat)
    (j : Nat × Nat) (hne : (w2, i2) ≠ j) :
    volsOf (match s.update_volume (w2, i2) (pathOf w2 i2) (attOf w2 i2)
        (mpOf w2 i2) with
      | Except.ok s2 => s2
      | Except.error _ => s) j = volsOf s j := by
  unfold Store.update_volume
  by_cases hg : s.volumes.any (fun r => decide (r.id = (w2, i2))) = true
  · rw [if_pos hg]
    dsimp only
    unfold volsOf
    dsimp only
    rw [filter_map_id_preserved _ ?pres j s.volumes]
    case pres =>
      intro r
      by_cases h : r.id = (w2, i2) <;> simp [h]
    refine (List.map_congr_left ?_).trans (List.map_id _)
    intro r hr
    rw [List.mem_filter] at hr
    have hj : r.id = j := by simpa using hr.2
    have hnot : ¬ r.id = (w2, i2) := by
      rw [hj]
      exact fun hc => hne hc.symm
    rw [if_neg hnot]
    rfl
  · rw [if_neg hg]

/-- Projection of one executed operation onto one volume id: an
operation on a different volume leaves the projection unchanged; an
operation on `(w, i)` acts as the per-volume automaton `idStep`. -/
theorem volsOf_execOp (s : Store (Nat × Nat) Doc) (w i : Nat) (op : WOp) :
    volsOf (execOp s op) (w, i)
      = if touches w i op then idStep w i (volsOf s (w, i)) op
        else volsOf s (w, i) := by
  cases op with
  | addOp w2 i2 =>
    by_cases ht : (w2, i2) = (w, i)
    · have hw2 : w = w2 := (congrArg Prod.fst ht).symm
      have hi2 : i = i2 := (congrArg Prod.snd ht).symm
      subst hw2
      subst hi2
      rw [if_pos (by simp [touches, opVol])]
      show volsOf (s.run_add (w, i) (ciOf w i)) (w, i) = _
      rw [volsOf_run_add_self]
      rfl
    · rw [if_neg (by simp only [touches, opVol, decide_eq_true_eq]; exact ht)]
      show volsOf (s.run_add (w2, i2) (ciOf w2 i2)) (w, i) = _
      exact volsOf_run_add_ne s (w2, i2) (w, i) (ciOf w2 i2) ht
  | updOp w2 i2 =>
    by_cases ht : (w2, i2) = (w, i)
    · have hw2 : w = w2 := (congrArg Prod.fst ht).symm
      have hi2 : i = i2 := (congrArg Prod.snd ht).symm
      subst hw2
      subst hi2
      rw [if_pos (by simp [touches, opVol])]
      show volsOf (match s.update_volume (w, i) (pathOf w i) (attOf w i)
          (mpOf w i) with
        | Except.ok s2 => s2
        | Except.error _ => s) (w, i) = _
      rw [volsOf_run_upd_self]
      rfl
    · rw [if_neg (by simp only [touches, opVol, decide_eq_true_eq]; exact ht)]
      exact volsOf_run_upd_ne s w2 i2 (w, i) ht

/-- Projection of a whole schedule onto one volume id: only the
operations touching `(w, i)` act, through the per-volume automaton. -/
theorem volsOf_execTrace (w i : Nat) :
    ∀ (tr : List WOp) (s : Store (Nat × Nat) Doc),
      volsOf (execTrace s tr) (w, i)
        = (tr.filter (touches w i)).foldl (idStep w i) (volsOf s (w, i))
  | [], s => rfl
  | op :: tr, s => by
    show volsOf (execTrace (execOp s op) tr) (w, i) = _
    rw [volsOf_execTrace w i tr (execOp s op)]
    by_cases ht : touches w i op = true
    · rw [List.filter_cons_of_pos ht]
      rw [volsOf_execOp s w i op, if_pos ht, List.foldl_cons]
    · rw [List.filter_cons_of_neg ht]
      rw [volsOf_execOp s w i op, if_neg ht]

/-- Every operation of a worker's program belongs to that worker and
has an iteration index below the bound. -/
theorem mem_workerOps (w : Nat) :
    ∀ M op, op ∈ workerOps w M → opWorker op = w ∧ (opVol op).2 < M
  | 0, op, h => absurd h (List.not_mem_nil op)
  | M + 1, op, h => by
    rw [workerOps, List.mem_append] at h
    cases h with
    | inl h =>
      obtain ⟨h1, h2⟩ := mem_workerOps w M op h
      exact ⟨h1, Nat.lt_succ_of_lt h2⟩
    | inr h =>
      rw [List.mem_cons, List.mem_singleton] at h
      cases h with
      | inl h =>
        subst h
        exact ⟨rfl, Nat.lt_succ_self M⟩
      | inr h =>
        subst h
        exact ⟨rfl, Nat.lt_succ_self M⟩

/-- Within one worker's program, the operations on iteration `i < M`
are exactly the add followed by the update. -/
theorem filter_workerOps (w : Nat) :
    ∀ M i, i < M →
      (workerOps w M).filter (touches w i) = [WOp.addOp w i, WOp.updOp w i]
  | 0, i, hi => absurd hi (Nat.not_lt_zero i)
  | M + 1, i, hi => by
    rw [workerOps, List.filter_append]
    by_cases hiM : i = M
    · subst hiM
      have hnil : (workerOps w i).filter (touches w i) = [] := by
        rw [List.filter_eq_nil_iff]
        intro op hop
        obtain ⟨h1, h2⟩ := mem_workerOps w i op hop
        simp only [touches, decide_eq_true_eq]
        intro hc
        rw [hc] at h2
        exact Nat.lt_irrefl i h2
      have hpair : List.filter (touches w i) [WOp.addOp w i, WOp.updOp w i]
          = [WOp.addOp w i, WOp.updOp w i] := by
        simp [List.filter, touches, opVol]
      rw [hnil, hpair, List.nil_append]
    · have hi2 : i < M := Nat.lt_of_le_of_ne (Nat.le_of_lt_succ hi) hiM
      have hpair : List.filter (touches w i) [WOp.addOp w M, WOp.updOp w M]
          = [] := by
        have hne : ¬ (M = i) := fun hc => hiM hc.symm
        simp [List.filter, touches, opVol, hne]
      rw [filter_workerOps w M i hi2, hpair, List.append_nil]

/-- Claim C9: for every interleaving of `N` concurrent workers that each
add and then update their own `M` distinct volumes — each step one
atomic transaction of the shared store — after the whole schedule runs,
every one of the `N * M` volumes is present exactly once, with
connection info, path, attachment and multipath id all correctly
populated: no record is lost, duplicated or left half-updated. -/
theorem concurrency_all_volumes_populated (now N M : Nat) (tr : List WOp)
    (h : IsInterleaving N M tr) (w i : Nat) (hw : w < N) (hi : i < M) :
    volsOf (execTrace (create_db none now) tr) (w, i) = [fullRec w i] ∧
    (execTrace (create_db none now) tr).get_volume (w, i)
      = Except.ok ⟨ciOf w i, some (pathOf w i), some (attOf w i),
          some (mpOf w i)⟩ := by
  obtain ⟨hworkers, hprog⟩ := h
  have himp : ∀ op, touches w i op = true
      → (fun op => decide (opWorker op = w)) op = true := by
    intro op hop
    simp only [touches, decide_eq_true_eq] at hop
    simp only [decide_eq_true_eq]
    cases op with
    | addOp w2 i2 =>
      simp only [opVol] at hop
      simp only [opWorker]
      exact congrArg Prod.fst hop
    | updOp w2 i2 =>
      simp only [opVol] at hop
      simp only [opWorker]
      exact congrArg Prod.fst hop
  have htr : tr.filter (touches w i) = [WOp.addOp w i, WOp.updOp w i] := by
    rw [← filter_sub (touches w i) (fun op => decide (opWorker op = w)) himp tr,
      hprog w hw, filter_workerOps w M i hi]
  have hrun := volsOf_execTrace w i tr (create_db none now)
  rw [htr] at hrun
  have hinit : volsOf (create_db (ι := Nat × Nat) (δ := Doc) none now) (w, i)
      = [] := rfl
  rw [hinit] at hrun
  have hfold : ([WOp.addOp w i, WOp.updOp w i]).foldl (idStep w i)
      ([] : List (VolumeRecord (Nat × Nat) Doc)) = [fullRec w i] := by
    show idStep w i (idStep w i [] (WOp.addOp w i)) (WOp.updOp w i)
        = [fullRec w i]
    simp [idStep, fullRec]
  rw [hfold] at hrun
  have hfilter2 : (execTrace (create_db none now) tr).volumes.filter
      (fun r => decide (r.id = (w, i))) = [fullRec w i] := hrun
  refine ⟨hrun, ?_⟩
  unfold Store.get_volume
  rw [find?_eq_head?_filter, hfilter2]
  rfl

/-- Witness for claim C9: a concrete interleaving of two workers, one
iteration each, whose volume `(0, 0)` ends fully populated. -/
theorem concurrency_all_volumes_populated_witness :
    IsInterleaving 2 1
      [WOp.addOp 0 0, WOp.addOp 1 0, WOp.updOp 1 0, WOp.updOp 0 0] ∧
    (volsOf (execTrace (create_db none 0)
        [WOp.addOp 0 0, WOp.addOp 1 0, WOp.updOp 1 0, WOp.updOp 0 0]) (0, 0)
        = [fullRec 0 0] ∧
      (execTrace (create_db none 0)
        [WOp.addOp 0 0, WOp.addOp 1 0, WOp.updOp 1 0, WOp.updOp 0 0]).get_volume
          (0, 0)
        = Except.ok ⟨ciOf 0 0, some (pathOf 0 0), some (attOf 0 0),
            some (mpOf 0 0)⟩) :=
  ⟨by decide,
    concurrency_all_volumes_populated 0 2 1
      [WOp.addOp 0 0, WOp.addOp 1 0, WOp.updOp 1 0, WOp.updOp 0 0]
      (by decide) 0 0 (by decide) (by decide)⟩

/-- An element of the domain XML document as `minidom` presents it to
the diskunmap hook: tag name, attributes in document order, and child
elements.  Text nodes play no role in the hook and are not modelled;
the document is represented by its root node. -/
inductive XmlNode where
  | elem (tag : String) (attrs : List (String × String)) (children : List XmlNode)

/-- The tag name of an element. -/
def XmlNode.tag : XmlNode → String
  | .elem t _ _ => t

/-- The attribute list of an element. -/
def XmlNode.attrs : XmlNode → List (String × String)
  | .elem _ a _ => a

/-- The child elements of an element. -/
def XmlNode.children : XmlNode → List XmlNode
  | .elem _ _ c => c

mutual
/-- `minidom`'s `getElementsByTagName`: the paths (sequences of child
indices) of all proper descendants of a node carrying the given tag, in
document order. -/
def elemsIn (t : String) : XmlNode → List (List Nat)
  | .elem _ _ children => elemsFrom t 0 children

/-- Helper of `elemsIn`: scans a child list whose first element has
index `i`. -/
def elemsFrom (t : String) (i : Nat) : List XmlNode → List (List Nat)
  | [] => []
  | c :: cs => (if c.tag = t then [[i]] else [])
      ++ (elemsIn t c).map (fun q => i :: q)
      ++ elemsFrom t (i + 1) cs
end

/-- The node reached from `n` along a path of child indices. -/
def nodeAt : XmlNode → List Nat → Option XmlNode
  | n, [] => some n
  | n, idx :: p =>
    match n.children[idx]? with
    | some c => nodeAt c p
    | none => none

/-- `minidom`'s `getAttribute`: the value of the attribute, or the empty
string when it is absent. -/
def getAttribute (n : XmlNode) (k : String) : String :=
  match n.attrs.find? (fun kv => decide (kv.1 = k)) with
  | some kv => kv.2
  | none => ""

/-- `minidom`'s `setAttribute` on an attribute list: replace the value
in place when the name is present, append the pair otherwise. -/
def setAttrList (attrs : List (String × String)) (k v : String) :
    List (String × String) :=
  if attrs.any (fun kv => decide (kv.1 = k)) then
    attrs.map (fun kv => if kv.1 = k then (k, v) else kv)
  else attrs ++ [(k, v)]

/-- In-place mutation of the attribute at the node reached by `p`
(identity when the path is invalid, which the hook never does). -/
def setAttrAt (n : XmlNode) (p : List Nat) (k v : String) : XmlNode :=
  match p with
  | [] => XmlNode.elem n.tag (setAttrList n.attrs k v) n.children
  | idx :: rest =>
    match n.children[idx]? with
    | some c =>
      XmlNode.elem n.tag n.attrs (n.children.set idx (setAttrAt c rest k v))
    | none => n

/-- One iteration of the loop of `addDiscardUnmap`, at the disk element
reached by path `p` of the current document: read `device`, subscript
the first `target` descendant (raising `IndexError` like the Python
`[0]` when there is none), read its `bus`, and when the disk qualifies
subscript the first `driver` descendant (again possibly raising) and set
`discard="unmap"` on it. -/
def processDisk (doc : XmlNode) (p : List Nat) : Except String XmlNode :=
  match nodeAt doc p with
  | none => Except.error "missing node"
  | some disk =>
    match elemsIn "target" disk with
    | [] => Except.error "IndexError"
    | tp :: _ =>
      match nodeAt disk tp with
      | none => Except.error "missing node"
      | some target =>
        if (getAttribute disk "device" = "disk"
              ∨ getAttribute disk "device" = "lun")
            ∧ (getAttribute target "bus" = "scsi"
              ∨ getAttribute target "bus" = "ide") then
          match elemsIn "driver" disk with
          | [] => Except.error "IndexError"
          | dp :: _ => Except.ok (setAttrAt doc (p ++ dp) "discard" "unmap")
        else Except.ok doc

/-- Translation of `addDiscardUnmap` of
`vdsm_hooks/diskunmap/before_vm_start.py`: for every disk element of
the domain document, in document order, if its `device` is `disk` or
`lun` and the `bus` of its first `target` element is `scsi` or `ide`,
set `discard="unmap"` on its first `driver` element.  The disk list is
computed once up front; mutation is in place, modelled by threading the
document through the loop; an uncaught `IndexError` aborts the loop. -/
def addDiscardUnmap (doc : XmlNode) : Except String XmlNode :=
  (elemsIn "disk" doc).foldlM processDisk doc

/-- Whether a disk element qualifies for the unmap attribute: `device`
is `disk` or `lun` and the `bus` of its first `target` descendant is
`scsi` or `ide`. -/
def qualifies (disk : XmlNode) : Bool :=
  match elemsIn "target" disk with
  | [] => false
  | tp :: _ =>
    match nodeAt disk tp with
    | none => false
    | some target =>
      decide ((getAttribute disk "device" = "disk"
          ∨ getAttribute disk "device" = "lun")
        ∧ (getAttribute target "bus" = "scsi"
          ∨ getAttribute target "bus" = "ide"))

/-- The absolute path of the first `driver` descendant of the disk at
path `p`, when that disk exists, qualifies, and has a driver. -/
def driverTarget (doc : XmlNode) (p : List Nat) : Option (List Nat) :=
  match nodeAt doc p with
  | none => none
  | some disk =>
    if qualifies disk then
      match elemsIn "driver" disk with
      | [] => none
      | dp :: _ => some (p ++ dp)
    else none

/-- The paths of all the driver elements the hook sets `discard` on. -/
def driverTargets (doc : XmlNode) : List (List Nat) :=
  (elemsIn "disk" doc).filterMap (driverTarget doc)

/-- The documents the Python loop completes on without an `IndexError`:
every disk element has a `target` descendant and every qualifying disk
also has a `driver` descendant. -/
def wellFormedDoc (doc : XmlNode) : Bool :=
  (elemsIn "disk" doc).all (fun p =>
    match nodeAt doc p with
    | none => false
    | some disk =>
      !(elemsIn "target" disk).isEmpty
        && (!(qualifies disk) || !(elemsIn "driver" disk).isEmpty))

/-- The attribute list of the node reached by `p`. -/
def attrsAt (n : XmlNode) (p : List Nat) : Option (List (String × String)) :=
  (nodeAt n p).map XmlNode.attrs

/-- Applying the hook's attribute mutations at a list of paths. -/
def applyMods (n : XmlNode) (qs : List (List Nat)) : XmlNode :=
  qs.foldl (fun d q => setAttrAt d q "discard" "unmap") n

/-- `dropPre p q` strips the prefix `p` from `q`. -/
def dropPre : List Nat → List Nat → Option (List Nat)
  | [], q => some q
  | _ :: _, [] => none
  | i :: p, j :: q => if j = i then dropPre p q else none

/-- `setAttrAt` never changes the tag of the root. -/
theorem tag_setAttrAt (n : XmlNode) (p : List Nat) (k v : String) :
    (setAttrAt n p k v).tag = n.tag := by
  cases p with
  | nil => rfl
  | cons idx rest =>
    unfold setAttrAt
    cases n.children[idx]? with
    | none => rfl
    | some c => rfl

/-- `setAttrAt` never changes the number of children of the root. -/
theorem children_length_setAttrAt (n : XmlNode) (p : List Nat) (k v : String) :
    (setAttrAt n p k v).children.length = n.children.length := by
  cases p with
  | nil => rfl
  | cons idx rest =>
    unfold setAttrAt
    cases n.children[idx]? with
    | none => rfl
    | some c => simp [XmlNode.children]

/-- `setAttrAt` along a non-empty path keeps the root attributes. -/
theorem attrs_setAttrAt_cons (n : XmlNode) (idx : Nat) (rest : List Nat)
    (k v : String) :
    (setAttrAt n (idx :: rest) k v).attrs = n.attrs := by
  unfold setAttrAt
  cases n.children[idx]? with
  | none => rfl
  | some c => rfl

/-- `dropPre p q` strips exactly the prefix `p` from `q`. -/
theorem dropPre_eq_some :
    ∀ (p q r : List Nat), dropPre p q = some r ↔ q = p ++ r
  | [], q, r => by
    constructor
    · intro h
      cases h
      rfl
    · intro h
      rw [h]
      rfl
  | i :: p, [], r => by
    constructor
    · intro h
      cases h
    · intro h
      cases h
  | i :: p, j :: q, r => by
    constructor
    · intro h
      unfold dropPre at h
      by_cases hij : j = i
      · rw [if_pos hij] at h
        rw [hij, (dropPre_eq_some p q r).mp h]
        rfl
      · rw [if_neg hij] at h
        cases h
    · intro h
      rw [List.cons_append] at h
      have h1 : j = i := (List.cons.injEq j q i (p ++ r)).mp h |>.1
      have h2 : q = p ++ r := (List.cons.injEq j q i (p ++ r)).mp h |>.2
      unfold dropPre
      rw [if_pos h1]
      exact (dropPre_eq_some p q r).mpr h2

/-- When `dropPre` fails, `q` does not lie in the subtree of `p`. -/
theorem dropPre_eq_none (p q : List Nat) (h : dropPre p q = none) :
    ∀ r, q ≠ p ++ r := by
  intro r hr
  have := (dropPre_eq_some p q r).mpr hr
  rw [h] at this
  cases this

/-- Reduction of `nodeAt` on a constructor and a step of the path. -/
theorem nodeAt_cons (tg : String) (a : List (String × String))
    (ch : List XmlNode) (idx : Nat) (p : List Nat) :
    nodeAt (XmlNode.elem tg a ch) (idx :: p)
      = match ch[idx]? with
        | some c => nodeAt c p
        | none => none := rfl

/-- Reduction of `setAttrAt` on a constructor and a step of the path. -/
theorem setAttrAt_cons (tg : String) (a : List (String × String))
    (ch : List XmlNode) (idx : Nat) (rest : List Nat) (k v : String) :
    setAttrAt (XmlNode.elem tg a ch) (idx :: rest) k v
      = match ch[idx]? with
        | some c => XmlNode.elem tg a (ch.set idx (setAttrAt c rest k v))
        | none => XmlNode.elem tg a ch := rfl

/-- Reading at `p` after mutating at `p ++ r`: the subtree at `p` is
the original subtree mutated at the relative path `r`. -/
theorem nodeAt_setAttrAt_append (k v : String) :
    ∀ (p : List Nat) (n : XmlNode) (r : List Nat),
      nodeAt (setAttrAt n (p ++ r) k v) p
        = (nodeAt n p).map (fun m => setAttrAt m r k v)
  | [], n, r => rfl
  | idx :: p, XmlNode.elem tg a ch, r => by
    show nodeAt (setAttrAt (XmlNode.elem tg a ch) (idx :: (p ++ r)) k v)
        (idx :: p)
      = (nodeAt (XmlNode.elem tg a ch) (idx :: p)).map
          (fun m => setAttrAt m r k v)
    rw [setAttrAt_cons, nodeAt_cons]
    cases hc : ch[idx]? with
    | none =>
      dsimp only
      rw [nodeAt_cons, hc]
      rfl
    | some c =>
      dsimp only
      rw [nodeAt_cons]
      have hlt : idx < ch.length := (List.getElem?_eq_some.mp hc).1
      rw [List.getElem?_set_eq_of_lt _ hlt]
      dsimp only
      exact nodeAt_setAttrAt_append k v p c r

/-- Reading at `p` after mutating at a path that does not lie in the
subtree of `p` gives the original subtree. -/
theorem nodeAt_setAttrAt_of_not_pre (k v : String) :
    ∀ (q p : List Nat) (n : XmlNode), (∀ r, q ≠ p ++ r) →
      nodeAt (setAttrAt n q k v) p = nodeAt n p
  | [], p, n, hne => by
    cases p with
    | nil => exact absurd rfl (hne [])
    | cons idx rest =>
      cases n with
      | elem tg a ch =>
        show nodeAt (XmlNode.elem tg (setAttrList a k v) ch) (idx :: rest)
          = nodeAt (XmlNode.elem tg a ch) (idx :: rest)
        rw [nodeAt_cons, nodeAt_cons]
  | j :: q, p, n, hne => by
    cases p with
    | nil => exact absurd rfl (hne (j :: q))
    | cons idx rest =>
      cases n with
      | elem tg a ch =>
        rw [setAttrAt_cons]
        cases hc : ch[j]? with
        | none => rfl
        | some c =>
          dsimp only
          rw [nodeAt_cons, nodeAt_cons]
          by_cases hij : j = idx
          · subst hij
            have hlt : j < ch.length := (List.getElem?_eq_some.mp hc).1
            rw [List.getElem?_set_eq_of_lt _ hlt, hc]
            dsimp only
            exact nodeAt_setAttrAt_of_not_pre k v q rest c
              (fun r hr => hne r (by rw [hr]; rfl))
          · rw [List.getElem?_set_ne hij]

/-- Reading along a concatenated path reads along the two parts in
turn. -/
theorem nodeAt_append :
    ∀ (p : List Nat) (n : XmlNode) (r : List Nat),
      nodeAt n (p ++ r) = (nodeAt n p).bind (fun m => nodeAt m r)
  | [], n, r => rfl
  | idx :: p, XmlNode.elem tg a ch, r => by
    show nodeAt (XmlNode.elem tg a ch) (idx :: (p ++ r))
      = (nodeAt (XmlNode.elem tg a ch) (idx :: p)).bind (fun m => nodeAt m r)
    rw [nodeAt_cons, nodeAt_cons]
    cases hc : ch[idx]? with
    | none => rfl
    | some c => exact nodeAt_append p c r

/-- `setAttrAt` at the root rewrites exactly the root attributes. -/
theorem attrs_setAttrAt_nil (n : XmlNode) (k v : String) :
    (setAttrAt n [] k v).attrs = setAttrList n.attrs k v := rfl

/-- `elemsFrom` only looks at tags and descendant paths, so replacing a
child by one with the same tag and the same descendant paths leaves it
unchanged. -/
theorem elemsFrom_set (t : String) :
    ∀ (ch : List XmlNode) (i idx : Nat) (c c2 : XmlNode),
      ch[idx]? = some c → c2.tag = c.tag → elemsIn t c2 = elemsIn t c →
      elemsFrom t i (ch.set idx c2) = elemsFrom t i ch
  | [], i, idx, c, c2, hc, _, _ => by cases hc
  | x :: xs, i, 0, c, c2, hc, htag, helems => by
    rw [List.getElem?_cons_zero] at hc
    have hx : x = c := Option.some.inj hc
    show elemsFrom t i (c2 :: xs) = elemsFrom t i (x :: xs)
    show (if c2.tag = t then [[i]] else [])
        ++ (elemsIn t c2).map (fun qq => i :: qq) ++ elemsFrom t (i + 1) xs
      = (if x.tag = t then [[i]] else [])
        ++ (elemsIn t x).map (fun qq => i :: qq) ++ elemsFrom t (i + 1) xs
    rw [htag, helems, ← hx]
  | x :: xs, i, idx + 1, c, c2, hc, htag, helems => by
    rw [List.getElem?_cons_succ] at hc
    show elemsFrom t i (x :: xs.set idx c2) = elemsFrom t i (x :: xs)
    show (if x.tag = t then [[i]] else [])
        ++ (elemsIn t x).map (fun qq => i :: qq)
        ++ elemsFrom t (i + 1) (xs.set idx c2)
      = (if x.tag = t then [[i]] else [])
        ++ (elemsIn t x).map (fun qq => i :: qq) ++ elemsFrom t (i + 1) xs
    rw [elemsFrom_set t xs (i + 1) idx c c2 hc htag helems]

/-- Mutating an attribute anywhere leaves every `getElementsByTagName`
result unchanged. -/
theorem elemsIn_setAttrAt (t k v : String) :
    ∀ (q : List Nat) (n : XmlNode),
      elemsIn t (setAttrAt n q k v) = elemsIn t n
  | [], XmlNode.elem tg a ch => rfl
  | idx :: rest, XmlNode.elem tg a ch => by
    rw [setAttrAt_cons]
    cases hc : ch[idx]? with
    | none => rfl
    | some c =>
      dsimp only
      show elemsFrom t 0 (ch.set idx (setAttrAt c rest k v)) = elemsFrom t 0 ch
      exact elemsFrom_set t ch 0 idx c (setAttrAt c rest k v) hc
        (tag_setAttrAt c rest k v) (elemsIn_setAttrAt t k v rest c)

/-- Setting the same attribute twice is the same as setting it once. -/
theorem setAttrList_idem (a : List (String × String)) (k v : String) :
    setAttrList (setAttrList a k v) k v = setAttrList a k v := by
  unfold setAttrList
  by_cases h : a.any (fun kv => decide (kv.1 = k)) = true
  · rw [if_pos h]
    have h2 : (a.map (fun kv => if kv.1 = k then (k, v) else kv)).any
        (fun kv => decide (kv.1 = k)) = true := by
      rw [List.any_eq_true] at h ⊢
      obtain ⟨kv, hmem, hk⟩ := h
      refine ⟨(k, v), ?_, by simp⟩
      have hkv : (if kv.1 = k then (k, v) else kv) = (k, v) := by
        rw [if_pos (by simpa using hk)]
      exact List.mem_map.mpr ⟨kv, hmem, hkv⟩
    rw [if_pos h2, List.map_map]
    apply List.map_congr_left
    intro kv _
    by_cases hkv : kv.1 = k
    · simp [hkv]
    · simp [hkv]
  · rw [if_neg h]
    have h2 : ((a ++ [(k, v)]).any (fun kv => decide (kv.1 = k))) = true := by
      rw [List.any_eq_true]
      exact ⟨(k, v), by simp, by simp⟩
    rw [if_pos h2, List.map_append]
    rw [Bool.not_eq_true, List.any_eq_false] at h
    congr 1
    · refine (List.map_congr_left ?_).trans (List.map_id _)
      intro kv hmem
      have hne := h kv hmem
      rw [if_neg (by simpa using hne)]
      rfl
    · simp

/-- Root attributes under `applyMods`: set exactly when some mutation
path is the root. -/
theorem attrs_applyMods :
    ∀ (rs : List (List Nat)) (m : XmlNode),
      (applyMods m rs).attrs
        = if [] ∈ rs then setAttrList m.attrs "discard" "unmap" else m.attrs
  | [], m => by
    rw [if_neg (List.not_mem_nil [])]
    rfl
  | r :: rs, m => by
    show (applyMods (setAttrAt m r "discard" "unmap") rs).attrs = _
    rw [attrs_applyMods rs (setAttrAt m r "discard" "unmap")]
    cases r with
    | nil =>
      rw [if_pos (List.mem_cons_self _ _)]
      by_cases h : ([] : List Nat) ∈ rs
      · rw [if_pos h, attrs_setAttrAt_nil]
        exact setAttrList_idem m.attrs "discard" "unmap"
      · rw [if_neg h, attrs_setAttrAt_nil]
    | cons idx rest =>
      rw [attrs_setAttrAt_cons]
      have hiff : ([] : List Nat) ∈ (idx :: rest) :: rs
          ↔ ([] : List Nat) ∈ rs := by
        rw [List.mem_cons]
        constructor
        · intro hx
          cases hx with
          | inl hx => exact absurd hx (by simp)
          | inr hx => exact hx
        · exact Or.inr
      by_cases h : ([] : List Nat) ∈ rs
      · rw [if_pos h, if_pos (hiff.mpr h)]
      · rw [if_neg h, if_neg (fun hc => h (hiff.mp hc))]

/-- Reading at `p` under `applyMods`: the subtree at `p` is the
original subtree with the mutation paths lying below `p` applied. -/
theorem nodeAt_applyMods :
    ∀ (qs : List (List Nat)) (n : XmlNode) (p : List Nat),
      nodeAt (applyMods n qs) p
        = (nodeAt n p).map (fun m => applyMods m (qs.filterMap (dropPre p)))
  | [], n, p => by
    show nodeAt n p = (nodeAt n p).map (fun m => applyMods m [])
    cases nodeAt n p with
    | none => rfl
    | some m => rfl
  | q :: qs, n, p => by
    show nodeAt (applyMods (setAttrAt n q "discard" "unmap") qs) p = _
    rw [nodeAt_applyMods qs (setAttrAt n q "discard" "unmap") p]
    cases hd : dropPre p q with
    | some r =>
      have hq : q = p ++ r := (dropPre_eq_some p q r).mp hd
      subst hq
      rw [nodeAt_setAttrAt_append, Option.map_map, List.filterMap_cons_some hd]
      rfl
    | none =>
      rw [nodeAt_setAttrAt_of_not_pre "discard" "unmap" q p n
          (dropPre_eq_none p q hd),
        List.filterMap_cons_none hd]

/-- Tags are unchanged by `applyMods`. -/
theorem tag_applyMods :
    ∀ (rs : List (List Nat)) (m : XmlNode), (applyMods m rs).tag = m.tag
  | [], m => rfl
  | r :: rs, m => by
    show (applyMods (setAttrAt m r "discard" "unmap") rs).tag = m.tag
    rw [tag_applyMods rs, tag_setAttrAt]

/-- Child counts are unchanged by `applyMods`. -/
theorem children_length_applyMods :
    ∀ (rs : List (List Nat)) (m : XmlNode),
      (applyMods m rs).children.length = m.children.length
  | [], m => rfl
  | r :: rs, m => by
    show (applyMods (setAttrAt m r "discard" "unmap") rs).children.length = _
    rw [children_length_applyMods rs, children_length_setAttrAt]

/-- `getElementsByTagName` results are unchanged by `applyMods`. -/
theorem elemsIn_applyMods (t : String) :
    ∀ (rs : List (List Nat)) (m : XmlNode),
      elemsIn t (applyMods m rs) = elemsIn t m
  | [], m => rfl
  | r :: rs, m => by
    show elemsIn t (applyMods (setAttrAt m r "discard" "unmap") rs) = _
    rw [elemsIn_applyMods t rs, elemsIn_setAttrAt]

/-- Attribute lists under `applyMods`: changed exactly at the mutation
paths, where `discard="unmap"` is set. -/
theorem attrsAt_applyMods (n : XmlNode) (qs : List (List Nat)) (p : List Nat) :
    attrsAt (applyMods n qs) p
      = if p ∈ qs then
          (attrsAt n p).map (fun a => setAttrList a "discard" "unmap")
        else attrsAt n p := by
  unfold attrsAt
  rw [nodeAt_applyMods, Option.map_map]
  have hmem : ([] : List Nat) ∈ qs.filterMap (dropPre p) ↔ p ∈ qs := by
    rw [List.mem_filterMap]
    constructor
    · rintro ⟨q, hq, hd⟩
      have hqp : q = p ++ [] := (dropPre_eq_some p q []).mp hd
      rw [List.append_nil] at hqp
      exact hqp ▸ hq
    · intro hp
      exact ⟨p, hp, (dropPre_eq_some p p []).mpr (by rw [List.append_nil])⟩
  by_cases h : p ∈ qs
  · rw [if_pos h]
    have h2 := hmem.mpr h
    cases hn : nodeAt n p with
    | none => rfl
    | some m =>
      show some ((applyMods m (qs.filterMap (dropPre p))).attrs) = _
      rw [attrs_applyMods, if_pos h2]
      rfl
  · rw [if_neg h]
    have h2 : ([] : List Nat) ∉ qs.filterMap (dropPre p) :=
      fun hc => h (hmem.mp hc)
    cases hn : nodeAt n p with
    | none => rfl
    | some m =>
      show some ((applyMods m (qs.filterMap (dropPre p))).attrs) = _
      rw [attrs_applyMods, if_neg h2]
      rfl

/-- Any member of `elemsFrom t i l` points into some child of `l`. -/
theorem mem_elemsFrom (t : String) :
    ∀ (l : List XmlNode) (i : Nat) (q : List Nat), q ∈ elemsFrom t i l →
      ∃ j c qq, l[j]? = some c ∧ q = (i + j) :: qq ∧
        ((qq = [] ∧ c.tag = t) ∨ qq ∈ elemsIn t c)
  | [], i, q, h => absurd h (List.not_mem_nil q)
  | c0 :: cs, i, q, h => by
    rw [show elemsFrom t i (c0 :: cs) = (if c0.tag = t then [[i]] else [])
        ++ (elemsIn t c0).map (fun qq => i :: qq) ++ elemsFrom t (i + 1) cs
      from rfl, List.mem_append, List.mem_append] at h
    rcases h with (h | h) | h
    · by_cases htag : c0.tag = t
      · rw [if_pos htag, List.mem_singleton] at h
        exact ⟨0, c0, [], List.getElem?_cons_zero,
          by rw [h, Nat.add_zero], Or.inl ⟨rfl, htag⟩⟩
      · rw [if_neg htag] at h
        exact absurd h (List.not_mem_nil q)
    · rw [List.mem_map] at h
      obtain ⟨qq, hqq, hq⟩ := h
      exact ⟨0, c0, qq, List.getElem?_cons_zero,
        by rw [← hq, Nat.add_zero], Or.inr hqq⟩
    · obtain ⟨j, c, qq, hj, hq, hdisj⟩ := mem_elemsFrom t cs (i + 1) q h
      exact ⟨j + 1, c, qq, by rw [List.getElem?_cons_succ]; exact hj,
        by rw [hq, show i + 1 + j = i + (j + 1) from by omega], hdisj⟩

/-- Fuel-indexed form: any member of `elemsIn t n` is the path of a
descendant element with tag `t`. -/
theorem mem_elemsIn_nodeAt_aux (t : String) :
    ∀ (fuel : Nat) (q : List Nat) (n : XmlNode), q.length ≤ fuel →
      q ∈ elemsIn t n → ∃ m, nodeAt n q = some m ∧ m.tag = t
  | 0, q, XmlNode.elem tg a ch, hfuel, h => by
    obtain ⟨j, c, qq, hj, hq, hdisj⟩ := mem_elemsFrom t ch 0 q h
    rw [hq] at hfuel
    simp at hfuel
  | fuel + 1, q, XmlNode.elem tg a ch, hfuel, h => by
    obtain ⟨j, c, qq, hj, hq, hdisj⟩ := mem_elemsFrom t ch 0 q h
    subst hq
    simp only [Nat.zero_add] at hj hfuel ⊢
    cases hdisj with
    | inl hin =>
      obtain ⟨hqq, htag⟩ := hin
      subst hqq
      refine ⟨c, ?_, htag⟩
      rw [nodeAt_cons, hj]
      rfl
    | inr hin =>
      have hlen : qq.length ≤ fuel := by
        rw [List.length_cons] at hfuel
        omega
      obtain ⟨m, hm, htag⟩ := mem_elemsIn_nodeAt_aux t fuel qq c hlen hin
      refine ⟨m, ?_, htag⟩
      rw [nodeAt_cons, hj]
      exact hm

/-- Any member of `elemsIn t n` is the path of a descendant element
with tag `t`. -/
theorem mem_elemsIn_nodeAt (t : String) (n : XmlNode) (q : List Nat)
    (h : q ∈ elemsIn t n) : ∃ m, nodeAt n q = some m ∧ m.tag = t :=
  mem_elemsIn_nodeAt_aux t q.length q n (Nat.le_refl _) h

/-- Membership in the relative mutation paths below `p`. -/
theorem mem_filterMap_dropPre (qs : List (List Nat)) (p r : List Nat) :
    r ∈ qs.filterMap (dropPre p) ↔ p ++ r ∈ qs := by
  rw [List.mem_filterMap]
  constructor
  · rintro ⟨q, hq, hd⟩
    have hqe := (dropPre_eq_some p q r).mp hd
    exact hqe ▸ hq
  · intro h
    exact ⟨p ++ r, h, (dropPre_eq_some p (p ++ r) r).mpr rfl⟩

/-- `getAttribute` only reads the attribute list. -/
theorem getAttribute_eq_of_attrs (m1 m2 : XmlNode) (h : m1.attrs = m2.attrs)
    (k : String) : getAttribute m1 k = getAttribute m2 k := by
  unfold getAttribute
  rw [h]

/-- The loop invariant of `addDiscardUnmap`: on a well-formed document,
running the remaining disk paths over a document that already received
some driver mutations succeeds and accumulates exactly the driver
targets of those disks. -/
theorem foldlM_processDisk (doc : XmlNode) (hwf : wellFormedDoc doc = true) :
    ∀ (ds qs : List (List Nat)),
      (∀ p, p ∈ ds → p ∈ elemsIn "disk" doc) →
      (∀ q, q ∈ qs → ∃ m, nodeAt doc q = some m ∧ m.tag = "driver") →
      ds.foldlM processDisk (applyMods doc qs)
        = Except.ok (applyMods doc (qs ++ ds.filterMap (driverTarget doc)))
  | [], qs, _, _ => by
    rw [List.filterMap_nil, List.append_nil]
    rfl
  | p :: ds, qs, hds, hqs => by
    have hp : p ∈ elemsIn "disk" doc := hds p (List.mem_cons_self p ds)
    obtain ⟨disk, hdisk, htagdisk⟩ := mem_elemsIn_nodeAt "disk" doc p hp
    have h0 := List.all_eq_true.mp hwf p hp
    simp only [] at h0
    rw [hdisk] at h0
    have hwfp2 : (!(elemsIn "target" disk).isEmpty
        && (!(qualifies disk) || !(elemsIn "driver" disk).isEmpty)) = true := h0
    rw [Bool.and_eq_true] at hwfp2
    obtain ⟨htgtne, hdrvor⟩ := hwfp2
    cases hte : elemsIn "target" disk with
    | nil =>
      rw [hte] at htgtne
      simp at htgtne
    | cons tp tps =>
      have htp : tp ∈ elemsIn "target" disk := by
        rw [hte]
        exact List.mem_cons_self tp tps
      obtain ⟨target, htnode, htagt⟩ := mem_elemsIn_nodeAt "target" disk tp htp
      have hnotin : ∀ (u : List Nat) (m : XmlNode), nodeAt doc u = some m →
          ¬ m.tag = "driver" → u ∉ qs := by
        intro u m hm htagm hu
        obtain ⟨m2, hm2, htag2⟩ := hqs u hu
        rw [hm] at hm2
        exact htagm (by rw [Option.some.inj hm2]; exact htag2)
      have hcur : nodeAt (applyMods doc qs) p
          = some (applyMods disk (qs.filterMap (dropPre p))) := by
        rw [nodeAt_applyMods, hdisk]
        rfl
      have hdiskattrs : (applyMods disk (qs.filterMap (dropPre p))).attrs
          = disk.attrs := by
        rw [attrs_applyMods, if_neg]
        intro hc
        rw [mem_filterMap_dropPre, List.append_nil] at hc
        exact hnotin p disk hdisk (by rw [htagdisk]; decide) hc
      have hsubelems : ∀ t, elemsIn t (applyMods disk (qs.filterMap (dropPre p)))
          = elemsIn t disk := fun t => elemsIn_applyMods t _ disk
      have htnode2 : nodeAt (applyMods disk (qs.filterMap (dropPre p))) tp
          = some (applyMods target
              ((qs.filterMap (dropPre p)).filterMap (dropPre tp))) := by
        rw [nodeAt_applyMods, htnode]
        rfl
      have htattrs : (applyMods target
          ((qs.filterMap (dropPre p)).filterMap (dropPre tp))).attrs
          = target.attrs := by
        rw [attrs_applyMods, if_neg]
        intro hc
        rw [mem_filterMap_dropPre, List.append_nil,
          mem_filterMap_dropPre] at hc
        refine hnotin (p ++ tp) target ?_ (by rw [htagt]; decide) hc
        rw [nodeAt_append, hdisk]
        exact htnode
      have hdev : getAttribute (applyMods disk (qs.filterMap (dropPre p)))
          "device" = getAttribute disk "device" :=
        getAttribute_eq_of_attrs _ _ hdiskattrs _
      have hbus : getAttribute (applyMods target
          ((qs.filterMap (dropPre p)).filterMap (dropPre tp))) "bus"
          = getAttribute target "bus" :=
        getAttribute_eq_of_attrs _ _ htattrs _
      have hqualeq : qualifies disk
          = decide ((getAttribute disk "device" = "disk"
              ∨ getAttribute disk "device" = "lun")
            ∧ (getAttribute target "bus" = "scsi"
              ∨ getAttribute target "bus" = "ide")) := by
        unfold qualifies
        rw [hte]
        dsimp only
        rw [htnode]
      by_cases hcond : (getAttribute disk "device" = "disk"
            ∨ getAttribute disk "device" = "lun")
          ∧ (getAttribute target "bus" = "scsi"
            ∨ getAttribute target "bus" = "ide")
      · have hqual : qualifies disk = true := by
          rw [hqualeq]
          exact decide_eq_true hcond
        have hdrv2 : (elemsIn "driver" disk).isEmpty = false := by
          rw [hqual] at hdrvor
          simpa using hdrvor
        cases hde : elemsIn "driver" disk with
        | nil =>
          rw [hde] at hdrv2
          simp at hdrv2
        | cons dp dps =>
          have hdp : dp ∈ elemsIn "driver" disk := by
            rw [hde]
            exact List.mem_cons_self dp dps
          obtain ⟨drv, hdrvnode, htagdrv⟩ :=
            mem_elemsIn_nodeAt "driver" disk dp hdp
          have hstep : processDisk (applyMods doc qs) p
              = Except.ok (setAttrAt (applyMods doc qs) (p ++ dp)
                  "discard" "unmap") := by
            unfold processDisk
            rw [hcur]
            dsimp only
            rw [hsubelems "target", hte]
            dsimp only
            rw [htnode2]
            dsimp only
            rw [hdev, hbus, if_pos hcond, hsubelems "driver", hde]
          have hdt : driverTarget doc p = some (p ++ dp) := by
            unfold driverTarget
            rw [hdisk]
            dsimp only
            rw [if_pos hqual, hde]
          have happly : setAttrAt (applyMods doc qs) (p ++ dp)
              "discard" "unmap" = applyMods doc (qs ++ [p ++ dp]) := by
            unfold applyMods
            rw [List.foldl_append]
            rfl
          rw [List.foldlM_cons, hstep, happly]
          have hqs2 : ∀ q, q ∈ qs ++ [p ++ dp] →
              ∃ m, nodeAt doc q = some m ∧ m.tag = "driver" := by
            intro q hq
            rw [List.mem_append, List.mem_singleton] at hq
            cases hq with
            | inl hq => exact hqs q hq
            | inr hq =>
              subst hq
              refine ⟨drv, ?_, htagdrv⟩
              rw [nodeAt_append, hdisk]
              exact hdrvnode
          have hrec := foldlM_processDisk doc hwf ds (qs ++ [p ++ dp])
            (fun x hx => hds x (List.mem_cons_of_mem p hx)) hqs2
          show ds.foldlM processDisk (applyMods doc (qs ++ [p ++ dp])) = _
          rw [hrec, List.filterMap_cons_some hdt, List.append_assoc]
          rfl
      · have hqual : qualifies disk = false := by
          rw [hqualeq]
          exact decide_eq_false hcond
        have hstep : processDisk (applyMods doc qs) p
            = Except.ok (applyMods doc qs) := by
          unfold processDisk
          rw [hcur]
          dsimp only
          rw [hsubelems "target", hte]
          dsimp only
          rw [htnode2]
          dsimp only
          rw [hdev, hbus, if_neg hcond]
        have hdt : driverTarget doc p = none := by
          unfold driverTarget
          rw [hdisk]
          dsimp only
          rw [if_neg (by rw [hqual]; exact Bool.false_ne_true)]
        rw [List.foldlM_cons, hstep]
        show ds.foldlM processDisk (applyMods doc qs) = _
        rw [foldlM_processDisk doc hwf ds qs
          (fun x hx => hds x (List.mem_cons_of_mem p hx)) hqs,
          List.filterMap_cons_none hdt]

/-- Claim C10 (amended): on a domain document in which every disk
element has a `target` descendant and every qualifying disk also has a
`driver` descendant, `addDiscardUnmap` succeeds and returns a document
of identical shape — same tags and child counts at every path — whose
attribute lists are unchanged everywhere except at the first driver
element of each qualifying disk, where exactly `discard="unmap"` is
set.  (On other documents the code raises `IndexError` instead of
leaving them unchanged.) -/
theorem addDiscardUnmap_frame (doc : XmlNode) (hwf : wellFormedDoc doc = true) :
    ∃ out, addDiscardUnmap doc = Except.ok out ∧
      (∀ p, (nodeAt out p).map XmlNode.tag = (nodeAt doc p).map XmlNode.tag) ∧
      (∀ p, (nodeAt out p).map (fun m => m.children.length)
          = (nodeAt doc p).map (fun m => m.children.length)) ∧
      (∀ p, attrsAt out p =
        if p ∈ driverTargets doc then
          (attrsAt doc p).map (fun a => setAttrList a "discard" "unmap")
        else attrsAt doc p) := by
  have hqs0 : ∀ q, q ∈ ([] : List (List Nat)) →
      ∃ m, nodeAt doc q = some m ∧ m.tag = "driver" :=
    fun q hq => absurd hq (List.not_mem_nil q)
  have hmain := foldlM_processDisk doc hwf (elemsIn "disk" doc) []
    (fun p hp => hp) hqs0
  refine ⟨applyMods doc (driverTargets doc), ?_, ?_, ?_, ?_⟩
  · exact hmain
  · intro p
    rw [nodeAt_applyMods]
    cases nodeAt doc p with
    | none => rfl
    | some m => exact congrArg some (tag_applyMods _ m)
  · intro p
    rw [nodeAt_applyMods]
    cases nodeAt doc p with
    | none => rfl
    | some m => exact congrArg some (children_length_applyMods _ m)
  · intro p
    exact attrsAt_applyMods doc (driverTargets doc) p

/-- A domain document whose single disk element — a CD-ROM with no
`target` child — makes the loop of `addDiscardUnmap` crash with an
`IndexError` on the `[0]` subscript instead of returning the document
(which, having no qualifying disk, would have to come back unchanged
under the claim). -/
def diskNoTarget : XmlNode :=
  XmlNode.elem "domain" []
    [XmlNode.elem "devices" []
      [XmlNode.elem "disk" [("device", "cdrom")] []]]

/-- Counterexample for claim C10 as stated: on `diskNoTarget` the code
raises instead of leaving every non-qualifying disk unchanged. -/
theorem addDiscardUnmap_crashes_on_targetless_disk :
    addDiscardUnmap diskNoTarget = Except.error "IndexError" ∧
    ¬ addDiscardUnmap diskNoTarget = Except.ok diskNoTarget := by
  constructor
  · rfl
  · intro hc
    rw [show addDiscardUnmap diskNoTarget = Except.error "IndexError" from rfl]
      at hc
    cases hc

/-- A well-formed domain document with one qualifying disk: device
`lun`, first target bus `scsi`, and a driver element. -/
def diskDoc : XmlNode :=
  XmlNode.elem "domain" []
    [XmlNode.elem "devices" []
      [XmlNode.elem "disk" [("device", "lun")]
        [XmlNode.elem "target" [("bus", "scsi"), ("dev", "sda")] [],
         XmlNode.elem "driver" [("name", "qemu"), ("type", "raw")] []]]]

/-- Witness for the amended claim C10 at the concrete document
`diskDoc`. -/
theorem addDiscardUnmap_frame_witness :
    wellFormedDoc diskDoc = true ∧
    (∃ out, addDiscardUnmap diskDoc = Except.ok out ∧
      (∀ p, (nodeAt out p).map XmlNode.tag
          = (nodeAt diskDoc p).map XmlNode.tag) ∧
      (∀ p, (nodeAt out p).map (fun m => m.children.length)
          = (nodeAt diskDoc p).map (fun m => m.children.length)) ∧
      (∀ p, attrsAt out p =
        if p ∈ driverTargets diskDoc then
          (attrsAt diskDoc p).map (fun a => setAttrList a "discard" "unmap")
        else attrsAt diskDoc p)) :=
  ⟨by decide, addDiscardUnmap_frame diskDoc (by decide)⟩
